import Mathlib

/-!
Verification of the borrow-lend-ledger frontend core.

The development shallowly embeds the repository's domain logic:
* the balance aggregator (the `summaries` memo in the transaction context
  provider, `src/src/vite-env.d.ts` lines 124-146),
* the transaction store operations `fetchTransactions` and `addTransaction`
  (same file, lines 77-116),
* the client-side form validation (`validateForm` / `handleSubmit` in
  `src/src/components/TransactionForm.tsx`).

JavaScript numbers are modelled as rationals (the spec's data model calls
`amount` a positive real number); JavaScript objects used as string-keyed
maps are modelled as association lists with JS semantics: lookup finds the
first (unique) matching key, assignment to an existing key updates it in
place, assignment to a fresh key appends it. `String.prototype.trim` is
modelled by `jsTrim`, which drops leading and trailing whitespace
characters from the character list.
-/

namespace BorrowLend

/-- Whitespace for the purposes of `String.prototype.trim`
(space, tab, line terminators, vertical tab, form feed). -/
def jsWhitespace (c : Char) : Bool :=
  c = ' ' || c = '\t' || c = '\n' || c = '\r' || c = '\x0b' || c = '\x0c'

/-- JS `s.trim()`: the string with leading and trailing whitespace
removed. -/
def jsTrim (s : String) : String :=
  ⟨(s.data.dropWhile jsWhitespace).reverse.dropWhile jsWhitespace |>.reverse⟩

/-- A transaction record as returned by the backend
(`Transaction` in the transaction context file). -/
structure Transaction where
  _id : Option String
  lender : String
  borrower : String
  amount : ℚ
  createdAt : Option String
deriving DecidableEq

/-- The payload sent to create a transaction (`TransactionPayload`). -/
structure TransactionPayload where
  lender : String
  borrower : String
  amount : ℚ
deriving DecidableEq

/-- `Summary` — the JS object mapping person name to net balance,
modelled as an association list in insertion order. -/
abbrev Summary := List (String × ℚ)

/-- JS object read `m[k]`: first binding of `k`, `none` when absent
(`undefined`). -/
def lookupName (k : String) : Summary → Option ℚ
  | [] => none
  | (k₂, v) :: rest => if k = k₂ then some v else lookupName k rest

/-- JS object write `m[k] = v`: update in place when the key exists,
append otherwise. -/
def setKey : Summary → String → ℚ → Summary
  | [], k, v => [(k, v)]
  | (k₂, v₂) :: rest, k, v =>
    if k₂ = k then (k₂, v) :: rest else (k₂, v₂) :: setKey rest k v

/-- One iteration of the `transactions.forEach` body in the `summaries`
memo: trim both names, initialize absent keys to `0`, subtract the amount
from the lender's entry, add it to the borrower's entry. -/
def step (s : Summary) (tx : Transaction) : Summary :=
  let lender := jsTrim tx.lender
  let borrower := jsTrim tx.borrower
  let amount := tx.amount
  let s₁ := match lookupName lender s with
    | none => setKey s lender 0
    | some _ => s
  let s₂ := match lookupName borrower s₁ with
    | none => setKey s₁ borrower 0
    | some _ => s₁
  let s₃ := setKey s₂ lender ((lookupName lender s₂).getD 0 - amount)
  setKey s₃ borrower ((lookupName borrower s₃).getD 0 + amount)

/-- The balance aggregator: the `summaries` computation, a fold of `step`
over the transaction list in collection order starting from the empty
object. -/
def aggregate (ts : List Transaction) : Summary :=
  ts.foldl step []

/-- The sum of all balances recorded in a summary. -/
def valuesSum (s : Summary) : ℚ :=
  (s.map Prod.snd).sum

/-- The signed contribution of one transaction to the balance of the
trimmed name `k`: plus the amount when `k` is the borrower, minus the
amount when `k` is the lender. -/
def contrib (k : String) (t : Transaction) : ℚ :=
  (if k = jsTrim t.borrower then t.amount else 0) -
    (if k = jsTrim t.lender then t.amount else 0)

/-- Whether the trimmed name `k` occurs as a lender or borrower in the
list. -/
def touched (k : String) (ts : List Transaction) : Bool :=
  ts.any fun t => k = jsTrim t.lender || k = jsTrim t.borrower

/-- The net balance of the trimmed name `k` over a transaction list. -/
def balance (k : String) (ts : List Transaction) : ℚ :=
  (ts.map (contrib k)).sum

/-- Total amount lent by the trimmed name `k`. -/
def lentSum (k : String) (ts : List Transaction) : ℚ :=
  ((ts.filter fun t => jsTrim t.lender = k).map Transaction.amount).sum

/-- Total amount borrowed by the trimmed name `k`. -/
def borrowedSum (k : String) (ts : List Transaction) : ℚ :=
  ((ts.filter fun t => jsTrim t.borrower = k).map Transaction.amount).sum

/-! The aggregation fold exactly as the specification words it, for the
refinement claim C1: trim both names, "insert each such key with value 0
if previously absent, then subtract the transaction's amount from the
lender's entry and add it to the borrower's entry". -/

/-- Insert key `k` with value `0` if previously absent. -/
def ensureKey (m : Summary) (k : String) : Summary :=
  if (lookupName k m).isNone then setKey m k 0 else m

/-- Add `d` to the entry of key `k`. -/
def addToKey (m : Summary) (k : String) (d : ℚ) : Summary :=
  setKey m k ((lookupName k m).getD 0 + d)

/-- One step of the fold as the specification words it: trim both names,
insert each as a key with value `0` if previously absent, subtract the
amount from the lender's entry, add it to the borrower's entry. -/
def specFoldStep (m : Summary) (t : Transaction) : Summary :=
  let l := jsTrim t.lender
  let b := jsTrim t.borrower
  addToKey (addToKey (ensureKey (ensureKey m l) b) l (-t.amount)) b t.amount

/-- The specification's description of the aggregation fold, in collection
order. -/
def aggregateSpec (ts : List Transaction) : Summary :=
  ts.foldl specFoldStep []

/-! ### Transaction store

The provider state visible to collaborators, and the two asynchronous
operations with the outcome of each awaited API call made explicit:
`Except.ok` carries the resolved value, `Except.error` the descriptive
message derived in the corresponding catch block. -/

/-- Observable state of the transaction store context provider. -/
structure StoreState where
  transactions : List Transaction
  isLoading : Bool
  error : Option String
deriving DecidableEq

/-- The state right before `fetchTransactions` awaits the network call:
`setIsLoading(true)` and `setError(null)` have run. -/
def startLoad (s : StoreState) : StoreState :=
  ⟨s.transactions, true, none⟩

/-- The remainder of `fetchTransactions` once the awaited call settles:
on success replace the collection; on failure set the error message and
clear the collection; either way the `finally` clears the busy flag. -/
def finishLoad (s : StoreState) : Except String (List Transaction) → StoreState
  | Except.ok fetched => ⟨fetched, false, s.error⟩
  | Except.error msg => ⟨[], false, some msg⟩

/-- `fetchTransactions` (the store's `load()`), as a function of the
previous state and of the fetch outcome. -/
def fetchTransactions (s : StoreState)
    (result : Except String (List Transaction)) : StoreState :=
  finishLoad (startLoad s) result

/-- `addTransaction` (the store's `create(payload)`), as a function of the
previous state, the creation outcome, and the outcome of the
resynchronizing fetch it performs on success. On creation failure it only
records the error message and clears the busy flag; the fetch outcome is
never consulted because `fetchTransactions` is not invoked. -/
def addTransaction (s : StoreState) (createResult : Except String Transaction)
    (fetchResult : Except String (List Transaction)) : StoreState :=
  let s₀ : StoreState := ⟨s.transactions, true, s.error⟩
  match createResult with
  | Except.ok _ => fetchTransactions s₀ fetchResult
  | Except.error msg => ⟨s₀.transactions, false, some msg⟩

/-! ### Client-side form validation (`TransactionForm.tsx`) -/

/-- JS `s.toLowerCase()`, character by character. -/
def jsToLower (s : String) : String :=
  ⟨s.data.map Char.toLower⟩

/-- The field-error object built by `validateForm`. -/
structure FormErrors where
  lender : Option String
  borrower : Option String
  amount : Option String
  form : Option String
deriving DecidableEq

/-- `validateForm` over the three raw input strings. `parsed` stands for
the JS value `parseFloat(amount)`: `none` when that result is `NaN`,
`some q` when it is the number `q`. -/
def validateForm (lender borrower amount : String) (parsed : Option ℚ) :
    FormErrors :=
  let trimmedLender := jsTrim lender
  let trimmedBorrower := jsTrim borrower
  let lenderErr : Option String :=
    if trimmedLender = "" then some "Lender name is required." else none
  let borrowerErr : Option String :=
    if trimmedBorrower = "" then some "Borrower name is required." else none
  let borrowerErr : Option String :=
    if trimmedLender ≠ "" ∧ trimmedBorrower ≠ "" ∧
        jsToLower trimmedLender = jsToLower trimmedBorrower then
      some "Borrower cannot be the same as the lender."
    else borrowerErr
  let amountErr : Option String :=
    if amount = "" then some "Amount is required."
    else
      match parsed with
      | none => some "Please enter a valid positive amount."
      | some q =>
        if q ≤ 0 then some "Please enter a valid positive amount." else none
  ⟨lenderErr, borrowerErr, amountErr, none⟩

/-- `Object.keys(validationErrors).length > 0`: in the JS object a key is
present exactly when `validateForm` assigned it a message. -/
def hasErrors (e : FormErrors) : Bool :=
  e.lender.isSome || e.borrower.isSome || e.amount.isSome || e.form.isSome

/-- `handleSubmit` up to its store interaction: validate, and halt
(`none`) when any validation error exists — before `addTransaction` and
before any network call — otherwise pass the trimmed payload to
`addTransaction` (`some payload`; on the success path `parsed` is
necessarily `some`, so the `getD` default is never taken). -/
def handleSubmit (lender borrower amount : String) (parsed : Option ℚ) :
    Option TransactionPayload :=
  if hasErrors (validateForm lender borrower amount parsed) then none
  else some ⟨jsTrim lender, jsTrim borrower, parsed.getD 0⟩

/-! ### Lemmas about the JS-object model -/

theorem lookupName_setKey (s : Summary) (k k₂ : String) (v : ℚ) :
    lookupName k (setKey s k₂ v) =
      if k = k₂ then some v else lookupName k s := by
  induction s with
  | nil =>
    by_cases h : k = k₂ <;> simp [setKey, lookupName, h]
  | cons p rest ih =>
    obtain ⟨k₃, v₃⟩ := p
    by_cases h₃ : k₃ = k₂
    · subst h₃
      by_cases hk : k = k₃ <;> simp [setKey, lookupName, hk]
    · by_cases hk : k = k₃
      · subst hk
        simp [setKey, h₃, lookupName]
      · simp [setKey, h₃, lookupName, hk, ih]

theorem valuesSum_setKey_absent (s : Summary) {k : String}
    (h : lookupName k s = none) (v : ℚ) :
    valuesSum (setKey s k v) = valuesSum s + v := by
  induction s with
  | nil => simp [setKey, valuesSum]
  | cons p rest ih =>
    obtain ⟨k₂, v₂⟩ := p
    by_cases hk : k = k₂
    · subst hk; simp [lookupName] at h
    · have h₂ : lookupName k rest = none := by simpa [lookupName, hk] using h
      have hne : k₂ ≠ k := fun hh => hk hh.symm
      simp [setKey, hne, valuesSum, List.map_cons, List.sum_cons] at ih ⊢
      rw [ih h₂]; ring

theorem valuesSum_setKey_present (s : Summary) {k : String} {w : ℚ}
    (h : lookupName k s = some w) (v : ℚ) :
    valuesSum (setKey s k v) = valuesSum s - w + v := by
  induction s with
  | nil => simp [lookupName] at h
  | cons p rest ih =>
    obtain ⟨k₂, v₂⟩ := p
    by_cases hk : k₂ = k
    · subst hk
      have hw : v₂ = w := by simpa [lookupName] using h
      subst hw
      simp [setKey, valuesSum]; ring
    · have hkk : ¬(k = k₂) := fun hh => hk hh.symm
      have h₂ : lookupName k rest = some w := by simpa [lookupName, hkk] using h
      simp [setKey, hk, valuesSum, List.map_cons, List.sum_cons] at ih ⊢
      rw [ih h₂]; ring

set_option maxHeartbeats 1000000 in
theorem lookupName_step (s : Summary) (t : Transaction) (k : String) :
    lookupName k (step s t) =
      if k = jsTrim t.lender ∨ k = jsTrim t.borrower then
        some ((lookupName k s).getD 0 + contrib k t)
      else lookupName k s := by
  unfold step contrib
  by_cases hlb : jsTrim t.borrower = jsTrim t.lender
  · rw [hlb]
    rcases hl : lookupName (jsTrim t.lender) s with _ | vl <;>
      simp only [hl, lookupName_setKey, if_pos rfl, Option.getD_some,
        Option.getD_none] <;>
      by_cases hkl : k = jsTrim t.lender <;>
      simp [hkl, lookupName_setKey, hl]
  · rcases hl : lookupName (jsTrim t.lender) s with _ | vl <;>
      rcases hb : lookupName (jsTrim t.borrower) s with _ | vb <;>
      simp only [hl, hb, lookupName_setKey, if_neg hlb, if_pos rfl,
        Option.getD_some, Option.getD_none] <;>
      by_cases hkl : k = jsTrim t.lender <;>
      by_cases hkb : k = jsTrim t.borrower <;>
      simp_all [lookupName_setKey] <;> ring_nf

theorem balance_cons (k : String) (t : Transaction) (ts : List Transaction) :
    balance k (t :: ts) = contrib k t + balance k ts := by
  simp [balance, List.map_cons, List.sum_cons]

theorem balance_eq_zero_of_not_touched {k : String} {ts : List Transaction}
    (h : touched k ts = false) : balance k ts = 0 := by
  induction ts with
  | nil => simp [balance]
  | cons t ts ih =>
    simp only [touched, List.any_cons, Bool.or_eq_false_iff] at h
    obtain ⟨h₁, h₂⟩ := h
    simp only [Bool.or_eq_false_iff, decide_eq_false_iff_not] at h₁
    rw [balance_cons, ih h₂, show contrib k t = 0 from by
      simp [contrib, h₁.1, h₁.2], add_zero]

theorem lookupName_foldl (ts : List Transaction) :
    ∀ (s : Summary) (k : String),
      lookupName k (List.foldl step s ts) =
        if touched k ts then
          some ((lookupName k s).getD 0 + balance k ts)
        else lookupName k s := by
  induction ts with
  | nil =>
    intro s k
    simp [touched, balance]
  | cons t ts ih =>
    intro s k
    rw [List.foldl_cons, ih]
    by_cases hm : k = jsTrim t.lender ∨ k = jsTrim t.borrower
    · by_cases ht : touched k ts
      · have ht' : touched k ts = true := ht
        have htc : touched k (t :: ts) = true := by
          unfold touched at ht' ⊢
          simp [List.any_cons, ht']
        simp [ht', htc, lookupName_step, if_pos hm, balance_cons]
        ring_nf
      · have ht' : touched k ts = false := by simpa using ht
        have htc : touched k (t :: ts) = true := by
          rcases hm with hm | hm <;> simp [touched, List.any_cons, hm]
        have hz : balance k ts = 0 := balance_eq_zero_of_not_touched ht'
        simp [ht', htc, lookupName_step, if_pos hm, balance_cons, hz]
    · have hc : contrib k t = 0 := by
        push_neg at hm
        simp [contrib, hm.1, hm.2]
      have htc : touched k (t :: ts) = touched k ts := by
        push_neg at hm
        simp [touched, List.any_cons, hm.1, hm.2]
      have hb : balance k (t :: ts) = balance k ts := by
        rw [balance_cons, hc, zero_add]
      simp only [lookupName_step, if_neg hm, htc, hb]

set_option maxHeartbeats 1600000 in
theorem valuesSum_step (s : Summary) (t : Transaction) :
    valuesSum (step s t) = valuesSum s := by
  unfold step
  by_cases hlb : jsTrim t.borrower = jsTrim t.lender
  · rw [hlb]
    rcases hl : lookupName (jsTrim t.lender) s with _ | vl <;>
      simp [hl, lookupName_setKey, valuesSum_setKey_absent,
        valuesSum_setKey_present]
  · have hlb₂ : ¬jsTrim t.lender = jsTrim t.borrower := fun h => hlb h.symm
    rcases hl : lookupName (jsTrim t.lender) s with _ | vl <;>
      rcases hb : lookupName (jsTrim t.borrower) s with _ | vb <;>
      simp [hl, hb, hlb, hlb₂, lookupName_setKey, valuesSum_setKey_absent,
        valuesSum_setKey_present] <;> ring

theorem valuesSum_foldl (ts : List Transaction) :
    ∀ s : Summary, valuesSum (List.foldl step s ts) = valuesSum s := by
  induction ts with
  | nil => intro s; rfl
  | cons t ts ih =>
    intro s
    rw [List.foldl_cons, ih, valuesSum_step]

/-- The closed form of the aggregator: a name is present in the result
exactly when it occurs (trimmed) in the list, and its value is its net
balance. -/
theorem lookupName_aggregate (ts : List Transaction) (k : String) :
    lookupName k (aggregate ts) =
      if touched k ts then some (balance k ts) else none := by
  rw [aggregate, lookupName_foldl]
  simp [lookupName]

set_option maxHeartbeats 1000000 in
theorem step_eq_specFoldStep (s : Summary) (t : Transaction) :
    step s t = specFoldStep s t := by
  unfold step specFoldStep ensureKey addToKey
  rcases hl : lookupName (jsTrim t.lender) s with _ | vl <;>
    by_cases hlb : jsTrim t.borrower = jsTrim t.lender <;>
    rcases hb : lookupName (jsTrim t.borrower) s with _ | vb <;>
    simp_all [lookupName_setKey, sub_eq_add_neg]

theorem aggregate_eq_aggregateSpec (ts : List Transaction) :
    aggregate ts = aggregateSpec ts := by
  rw [aggregate, aggregateSpec,
    funext fun s => funext fun t => step_eq_specFoldStep s t]

theorem lentSum_cons (k : String) (t : Transaction) (ts : List Transaction) :
    lentSum k (t :: ts) =
      (if jsTrim t.lender = k then t.amount else 0) + lentSum k ts := by
  by_cases h : jsTrim t.lender = k <;>
    simp [lentSum, List.filter_cons, h]

theorem borrowedSum_cons (k : String) (t : Transaction) (ts : List Transaction) :
    borrowedSum k (t :: ts) =
      (if jsTrim t.borrower = k then t.amount else 0) + borrowedSum k ts := by
  by_cases h : jsTrim t.borrower = k <;>
    simp [borrowedSum, List.filter_cons, h]

theorem balance_of_no_borrow {k : String} {ts : List Transaction}
    (h : ∀ t ∈ ts, jsTrim t.borrower ≠ k) :
    balance k ts = -lentSum k ts := by
  induction ts with
  | nil => simp [balance, lentSum]
  | cons t ts ih =>
    have hb : jsTrim t.borrower ≠ k := h t (by simp)
    have hb₂ : ¬k = jsTrim t.borrower := fun hh => hb hh.symm
    have ih₂ := ih fun u hu => h u (by simp [hu])
    rw [balance_cons, ih₂, lentSum_cons]
    unfold contrib
    by_cases hl : jsTrim t.lender = k
    · rw [if_pos hl, if_neg hb₂, if_pos hl.symm]
      ring
    · have hl₂ : ¬k = jsTrim t.lender := fun hh => hl hh.symm
      rw [if_neg hl, if_neg hb₂, if_neg hl₂]
      ring

theorem balance_of_no_lend {k : String} {ts : List Transaction}
    (h : ∀ t ∈ ts, jsTrim t.lender ≠ k) :
    balance k ts = borrowedSum k ts := by
  induction ts with
  | nil => simp [balance, borrowedSum]
  | cons t ts ih =>
    have hl : jsTrim t.lender ≠ k := h t (by simp)
    have hl₂ : ¬k = jsTrim t.lender := fun hh => hl hh.symm
    have ih₂ := ih fun u hu => h u (by simp [hu])
    rw [balance_cons, ih₂, borrowedSum_cons]
    unfold contrib
    by_cases hb : jsTrim t.borrower = k
    · rw [if_pos hb, if_pos hb.symm, if_neg hl₂]
      ring
    · have hb₂ : ¬k = jsTrim t.borrower := fun hh => hb hh.symm
      rw [if_neg hb, if_neg hb₂, if_neg hl₂]
      ring

theorem borrowedSum_nonneg {k : String} {ts : List Transaction}
    (hpos : ∀ t ∈ ts, 0 ≤ t.amount) : 0 ≤ borrowedSum k ts := by
  induction ts with
  | nil => simp [borrowedSum]
  | cons t ts ih =>
    have h₁ : 0 ≤ t.amount := hpos t (by simp)
    have h₂ := ih fun u hu => hpos u (by simp [hu])
    rw [borrowedSum_cons]
    by_cases hb : jsTrim t.borrower = k
    · rw [if_pos hb]; linarith
    · rw [if_neg hb]; linarith

theorem borrowedSum_pos {k : String} {ts : List Transaction}
    (hpos : ∀ t ∈ ts, 0 < t.amount)
    (hex : ∃ t ∈ ts, jsTrim t.borrower = k) : 0 < borrowedSum k ts := by
  induction ts with
  | nil => simp at hex
  | cons t ts ih =>
    rw [borrowedSum_cons]
    have hnn : 0 ≤ borrowedSum k ts :=
      borrowedSum_nonneg fun u hu => le_of_lt (hpos u (by simp [hu]))
    rcases hex with ⟨u, hu, hub⟩
    rcases List.mem_cons.mp hu with rfl | hu₂
    · rw [if_pos hub]
      have := hpos u (by simp)
      linarith
    · have hp := ih (fun v hv => hpos v (by simp [hv])) ⟨u, hu₂, hub⟩
      by_cases hb : jsTrim t.borrower = k
      · have := hpos t (by simp)
        rw [if_pos hb]; linarith
      · rw [if_neg hb]; linarith

theorem touched_of_lender {k : String} {ts : List Transaction}
    (hex : ∃ t ∈ ts, jsTrim t.lender = k) : touched k ts = true := by
  rcases hex with ⟨t, ht, hl⟩
  unfold touched
  simp only [List.any_eq_true]
  exact ⟨t, ht, by simp [hl.symm]⟩

theorem touched_of_borrower {k : String} {ts : List Transaction}
    (hex : ∃ t ∈ ts, jsTrim t.borrower = k) : touched k ts = true := by
  rcases hex with ⟨t, ht, hb⟩
  unfold touched
  simp only [List.any_eq_true]
  exact ⟨t, ht, by simp [hb.symm]⟩

/-! ### Claim theorems -/

/-- C1: for every finite list of transactions, `aggregate` equals the
mapping produced by the fold described by the specification (trim both
names, use the trimmed case-sensitive strings as keys, insert absent keys
with value 0, subtract the amount from the lender's entry and add it to
the borrower's entry, in collection order); in particular, on the single
transaction with lender "A", borrower "B" and amount 10 it yields
A ↦ -10, B ↦ 10. -/
theorem aggregate_matches_spec_fold :
    (∀ ts : List Transaction, aggregate ts = aggregateSpec ts) ∧
    aggregate [⟨none, "A", "B", 10, none⟩] = [("A", -10), ("B", 10)] := by
  refine ⟨aggregate_eq_aggregateSpec, ?_⟩
  norm_num +decide [aggregate, step, lookupName, setKey]

/-- C2: for every finite sequence of valid transactions (positive amount,
lender distinct from borrower), the values of the mapping returned by
`aggregate` sum to zero. -/
theorem aggregate_conservation (ts : List Transaction)
    (_hvalid : ∀ t ∈ ts, 0 < t.amount ∧ t.lender ≠ t.borrower) :
    valuesSum (aggregate ts) = 0 := by
  rw [aggregate, valuesSum_foldl ts []]
  rfl

theorem aggregate_conservation_witness :
    valuesSum (aggregate [⟨none, "A", "B", (10 : ℚ), none⟩]) = 0 :=
  aggregate_conservation _ (by
    intro t ht
    simp only [List.mem_singleton] at ht
    subst ht
    exact ⟨by norm_num, by decide⟩)

/-- C3: after a successful create, the store's collection equals exactly
the collection a subsequent `load()` from the remote source would return
(the fetched list), not the previous collection with the submitted object
merged in: the result never depends on the locally-submitted object. -/
theorem addTransaction_success_resyncs (s : StoreState) (tx : Transaction)
    (fetched : List Transaction) (fr : Except String (List Transaction)) :
    (addTransaction s (Except.ok tx) (Except.ok fetched)).transactions
        = fetched ∧
    addTransaction s (Except.ok tx) fr
        = fetchTransactions ⟨s.transactions, true, s.error⟩ fr ∧
    ∀ tx₂ : Transaction,
      addTransaction s (Except.ok tx) fr = addTransaction s (Except.ok tx₂) fr :=
  ⟨rfl, rfl, fun _ => rfl⟩

/-- C4: when the creation request fails, the collection is exactly the
collection held before the call, an error message is present, and the
resynchronizing `load()` is not invoked (the outcome of any fetch is never
consulted). -/
theorem addTransaction_failure_preserves (s : StoreState) (msg : String)
    (fr : Except String (List Transaction)) :
    (addTransaction s (Except.error msg) fr).transactions = s.transactions ∧
    (addTransaction s (Except.error msg) fr).error = some msg ∧
    ∀ fr₂, addTransaction s (Except.error msg) fr
        = addTransaction s (Except.error msg) fr₂ :=
  ⟨rfl, rfl, fun _ => rfl⟩

/-- C5: when the fetch performed by `load()` fails, the collection is
empty and the error state holds the descriptive message (and the busy flag
is cleared). -/
theorem fetchTransactions_failure_clears (s : StoreState) (msg : String) :
    (fetchTransactions s (Except.error msg)).transactions = [] ∧
    (fetchTransactions s (Except.error msg)).error = some msg ∧
    (fetchTransactions s (Except.error msg)).isLoading = false :=
  ⟨rfl, rfl, rfl⟩

/-- C10: every invocation of `load()` clears the error state before
fetching, so for every prior store state a successful `load()` ends with a
`none` error state and the fetched collection. -/
theorem fetchTransactions_clears_error (s : StoreState)
    (fetched : List Transaction) :
    (startLoad s).error = none ∧
    (fetchTransactions s (Except.ok fetched)).error = none ∧
    (fetchTransactions s (Except.ok fetched)).transactions = fetched :=
  ⟨rfl, rfl, rfl⟩

/-- C7: `aggregate` applied to a permutation of a list yields a mapping
with the same keys and the same final values: every lookup agrees. -/
theorem aggregate_perm_invariant (ts₁ ts₂ : List Transaction)
    (h : ts₁.Perm ts₂) (k : String) :
    lookupName k (aggregate ts₁) = lookupName k (aggregate ts₂) := by
  rw [lookupName_aggregate, lookupName_aggregate]
  have htv : touched k ts₁ = touched k ts₂ := by
    apply Bool.eq_iff_iff.mpr
    unfold touched
    simp only [List.any_eq_true]
    constructor <;> rintro ⟨t, ht, hp⟩
    · exact ⟨t, h.mem_iff.mp ht, hp⟩
    · exact ⟨t, h.mem_iff.mpr ht, hp⟩
  have hbal : balance k ts₁ = balance k ts₂ := (h.map (contrib k)).sum_eq
  rw [htv, hbal]

theorem aggregate_perm_invariant_witness :
    lookupName "A"
        (aggregate [⟨none, "A", "B", (10 : ℚ), none⟩,
          ⟨none, "B", "A", (4 : ℚ), none⟩]) =
      lookupName "A"
        (aggregate [⟨none, "B", "A", (4 : ℚ), none⟩,
          ⟨none, "A", "B", (10 : ℚ), none⟩]) ∧
    lookupName "A"
        (aggregate [⟨none, "A", "B", (10 : ℚ), none⟩,
          ⟨none, "B", "A", (4 : ℚ), none⟩]) = some (-6) :=
  ⟨aggregate_perm_invariant _ _ (List.Perm.swap _ _ _) "A", by
    norm_num +decide [aggregate, step, lookupName, setKey]⟩

/-- C8: a trimmed name that appears in the list only as a lender ends with
value minus the sum of the amounts it lent; a trimmed name appearing only
as a borrower (amounts being positive) ends with a positive value equal to
the sum of the amounts it borrowed. -/
theorem aggregate_one_sided_names (ts : List Transaction) (k : String) :
    ((∃ t ∈ ts, jsTrim t.lender = k) →
      (∀ t ∈ ts, jsTrim t.borrower ≠ k) →
      lookupName k (aggregate ts) = some (-lentSum k ts)) ∧
    ((∀ t ∈ ts, 0 < t.amount) →
      (∃ t ∈ ts, jsTrim t.borrower = k) →
      (∀ t ∈ ts, jsTrim t.lender ≠ k) →
      lookupName k (aggregate ts) = some (borrowedSum k ts) ∧
        0 < borrowedSum k ts) := by
  constructor
  · intro hex hno
    rw [lookupName_aggregate, if_pos (touched_of_lender hex),
      balance_of_no_borrow hno]
  · intro hpos hex hno
    rw [lookupName_aggregate, if_pos (touched_of_borrower hex),
      balance_of_no_lend hno]
    exact ⟨rfl, borrowedSum_pos hpos hex⟩

theorem aggregate_one_sided_names_witness :
    lookupName "A" (aggregate [⟨none, "A", "B", (10 : ℚ), none⟩])
        = some (-10) ∧
    lookupName "B" (aggregate [⟨none, "A", "B", (10 : ℚ), none⟩])
        = some 10 ∧ (0 : ℚ) < 10 := by
  have h₁ :=
    (aggregate_one_sided_names [⟨none, "A", "B", (10 : ℚ), none⟩] "A").1
      ⟨⟨none, "A", "B", (10 : ℚ), none⟩, by simp, by decide⟩
      (by intro t ht; simp only [List.mem_singleton] at ht; subst ht; decide)
  have h₂ :=
    (aggregate_one_sided_names [⟨none, "A", "B", (10 : ℚ), none⟩] "B").2
      (by intro t ht; simp only [List.mem_singleton] at ht; subst ht
          norm_num)
      ⟨⟨none, "A", "B", (10 : ℚ), none⟩, by simp, by decide⟩
      (by intro t ht; simp only [List.mem_singleton] at ht; subst ht; decide)
  refine ⟨?_, ?_, ?_⟩
  · rw [h₁]
    simp +decide [lentSum, List.filter]
  · rw [h₂.1]
    simp +decide [borrowedSum, List.filter]
  · norm_num

/-- C9: appending a transaction whose trimmed lender equals its trimmed
borrower never fails and leaves every balance unchanged, except that the
shared name becomes present with balance 0 when it was previously
absent. -/
theorem aggregate_self_loan_noop (ts : List Transaction) (t : Transaction)
    (h : jsTrim t.lender = jsTrim t.borrower) (k : String) :
    lookupName k (aggregate (ts ++ [t])) =
      if k = jsTrim t.lender ∧ lookupName k (aggregate ts) = none then some 0
      else lookupName k (aggregate ts) := by
  have hstep : aggregate (ts ++ [t]) = step (aggregate ts) t := by
    rw [aggregate, aggregate, List.foldl_append, List.foldl_cons,
      List.foldl_nil]
  rw [hstep, lookupName_step]
  by_cases hk : k = jsTrim t.lender
  · have hkb : k = jsTrim t.borrower := hk.trans h
    have hc : contrib k t = 0 := by
      unfold contrib
      rw [if_pos hkb, if_pos hk, sub_self]
    rw [if_pos (Or.inl hk), hc, add_zero]
    rcases hprev : lookupName k (aggregate ts) with _ | v
    · simp [hk, hprev]
    · simp [hk, hprev]
  · have hkb : ¬k = jsTrim t.borrower := fun hh => hk (hh.trans h.symm)
    rw [if_neg (by rintro (hh | hh); exacts [hk hh, hkb hh]),
      if_neg (by rintro ⟨hh, _⟩; exact hk hh)]

theorem aggregate_self_loan_noop_witness :
    lookupName "A" (aggregate ([] ++ [⟨none, " A", "A ", (5 : ℚ), none⟩]))
      = some 0 := by
  have h :=
    aggregate_self_loan_noop [] ⟨none, " A", "A ", (5 : ℚ), none⟩
      (by decide) "A"
  rw [h]
  decide

/-- C6: client-side validation halts a submission whose trimmed lender or
borrower name is empty, whose names are equal ignoring case, whose amount
parses to `NaN` (non-numeric), or whose parsed amount is non-positive
(covering 0 and -5): `handleSubmit` returns `none`, so `addTransaction`
is never called and no network request is made. -/
theorem validation_rejects_bad_input (lender borrower amount : String)
    (parsed : Option ℚ)
    (h : jsTrim lender = "" ∨ jsTrim borrower = "" ∨
        jsToLower (jsTrim lender) = jsToLower (jsTrim borrower) ∨
        parsed = none ∨ ∃ q, parsed = some q ∧ q ≤ 0) :
    handleSubmit lender borrower amount parsed = none := by
  rw [handleSubmit]
  suffices hs : hasErrors (validateForm lender borrower amount parsed)
      = true by rw [hs]; rfl
  rcases h with h | h | h | h | ⟨q, hq, hq0⟩
  · simp [validateForm, hasErrors, h]
  · simp [validateForm, hasErrors, h]
  · by_cases h₁ : jsTrim lender = ""
    · simp [validateForm, hasErrors, h₁]
    · by_cases h₂ : jsTrim borrower = ""
      · simp [validateForm, hasErrors, h₂]
      · simp [validateForm, hasErrors, h₁, h₂, h]
  · by_cases ha : amount = "" <;> simp [validateForm, hasErrors, h, ha]
  · by_cases ha : amount = "" <;>
      simp [validateForm, hasErrors, hq, hq0, ha]

theorem validation_rejects_bad_input_witness :
    handleSubmit "Bob" "bob" "10" (some (10 : ℚ)) = none ∧
    handleSubmit "Ann" "Ben" "0" (some (0 : ℚ)) = none ∧
    handleSubmit "Ann" "Ben" "-5" (some (-5 : ℚ)) = none ∧
    handleSubmit "Ann" "Ben" "x" none = none ∧
    handleSubmit "  " "Ben" "10" (some (10 : ℚ)) = none :=
  ⟨validation_rejects_bad_input _ _ _ _
      (Or.inr (Or.inr (Or.inl (by decide)))),
    validation_rejects_bad_input _ _ _ _
      (Or.inr (Or.inr (Or.inr (Or.inr ⟨0, rfl, by norm_num⟩)))),
    validation_rejects_bad_input _ _ _ _
      (Or.inr (Or.inr (Or.inr (Or.inr ⟨-5, rfl, by norm_num⟩)))),
    validation_rejects_bad_input _ _ _ _
      (Or.inr (Or.inr (Or.inr (Or.inl rfl)))),
    validation_rejects_bad_input _ _ _ _ (Or.inl (by decide))⟩

end BorrowLend
